import Mathlib

/-!
Verification development for the AITrading repository.

Part A embeds the Next.js API routes that post-process backtest results
(performance-summary and kline-data endpoints): deduplication of rows by
calendar day via a JS `Map` keyed on `toISOString().slice(0,10)`, ascending
sort by date, and the summary / signal computations.

Part B embeds the A-share backtest engine (portfolio ledger, guardrail and
sizing rules, cooldown state machine).  The Python engine files
(`backtest.py`, `simple_portfolio.py`, `trade_decision_simple_AI.py`) are not
part of the repository snapshot; the engine is modelled from the spec and from
the literal code fragments recorded in `specs/review/round3/review.md`,
`specs/rules/order.md` and the variable notes for `backtest.py`.
-/

namespace AITrading

/-- Milliseconds per calendar day; `new Date(x).toISOString().slice(0, 10)`
collapses a millisecond timestamp to its calendar day. -/
def msPerDay : ℕ := 86400000

/-- Calendar-day key of a millisecond timestamp, the embedding of
`toISOString().slice(0, 10)`. -/
def dayKey (t : ℕ) : ℕ := t / msPerDay

section Dedupe

variable {α : Type} (key : α → ℕ)

/-- One `map.set(key r, r)` step of the JS `Map`: if the key is already
present its value is replaced in place (JS `Map.set` keeps the original
insertion position), otherwise the pair is appended. -/
def upsertPair (acc : List (ℕ × α)) (r : α) : List (ℕ × α) :=
  if acc.any (fun p => p.1 = key r) then
    acc.map (fun p => if p.1 = key r then (p.1, r) else p)
  else acc ++ [(key r, r)]

/-- Folding all rows into the JS `Map`, starting from `acc`. -/
def dedupePairs (rows : List α) (acc : List (ℕ × α)) : List (ℕ × α) :=
  rows.foldl (upsertPair key) acc

/-- The embedding of `rows.forEach(r => map.set(dayOf r, r))` followed by
`Array.from(map.values())`: keep, for each key, the last row carrying it. -/
def dedupeByKey (rows : List α) : List α :=
  (dedupePairs key rows []).map Prod.snd

/-- Fold computing the last row of `rows` whose key is `k`, starting from `init`. -/
def lastWithKeyAux (k : ℕ) (init : Option α) (rows : List α) : Option α :=
  rows.foldl (fun acc r => if key r = k then some r else acc) init

/-- The last row of `rows` whose key is `k`, if any. -/
def lastWithKey (rows : List α) (k : ℕ) : Option α :=
  lastWithKeyAux key k none rows

/-- Lookup of a key in the accumulator list of the JS `Map` embedding. -/
def lookupAcc (acc : List (ℕ × α)) (k : ℕ) : Option α :=
  (acc.find? (fun p => p.1 = k)).map Prod.snd

/-- Insertion into a list sorted ascending by `key`; ties keep the existing
element first, matching a stable JS `Array.sort`. -/
def insertByKey (r : α) : List α → List α
  | [] => [r]
  | s :: rest => if key r < key s then r :: s :: rest else s :: insertByKey r rest

/-- The embedding of `.sort((a, b) => dateOf a - dateOf b)` (ascending,
stable); on lists whose keys are pairwise distinct this is the unique
ascending reordering, which is all the routes ever sort. -/
def sortByKey : List α → List α
  | [] => []
  | r :: rest => insertByKey key r (sortByKey rest)

end Dedupe

/-! ## Part A: Next.js API route embeddings -/

/-- One row of the `daily_metrics` Supabase table as read by the
performance-summary route: a timestamp and an equity value that may be null
(`Number(r.equity ?? 0)` is applied when mapping). -/
structure MetricRow where
  date : ℕ
  equity : Option ℚ
deriving DecidableEq, Repr

/-- Calendar-day key of a metrics row, `new Date(r.date).toISOString().slice(0, 10)`. -/
def MetricRow.dkey (r : MetricRow) : ℕ := dayKey r.date

/-- Equity of a row after the route's `Number(r.equity ?? 0)` coercion. -/
def metricEquity (r : MetricRow) : ℚ := r.equity.getD 0

/-- The route's `uniqueRows`: deduplicate by calendar date keeping the last
row per date, then sort ascending by timestamp. -/
def sortedUniqueMetrics (rows : List MetricRow) : List MetricRow :=
  sortByKey (fun r => r.date) (dedupeByKey MetricRow.dkey rows)

/-- The `summary` object returned by the performance-summary route
(`modelId` is the constant string `deepseek` and is omitted). -/
structure PerfSummary where
  currentEquity : ℚ
  change24h : ℚ
  sharpe : ℚ
  winRate : ℚ
deriving DecidableEq, Repr

/-- Embedding of the performance-summary GET handler body: dedupe the
`daily_metrics` rows by day keeping the last, sort ascending, read the last
and second-to-last equities, and return
`{currentEquity, change24h, sharpe: 0, winRate: 0}`. -/
def performanceSummary (rows : List MetricRow) : PerfSummary :=
  let siv := (sortedUniqueMetrics rows).map metricEquity
  let latestEquity := if 0 < siv.length then siv.getD (siv.length - 1) 0 else 0
  let previousEquity := if 1 < siv.length then siv.getD (siv.length - 2) 0 else latestEquity
  { currentEquity := latestEquity
    change24h := latestEquity - previousEquity
    sharpe := 0
    winRate := 0 }

/-- ASCII lowercase of one character, as `String.prototype.toLowerCase`
acts on the ASCII side names stored in the trades table. -/
def lowerChar (c : Char) : Char :=
  if 'A' ≤ c ∧ c ≤ 'Z' then Char.ofNat (c.toNat + 32) else c

/-- ASCII lowercase of a string (`String(r.side).toLowerCase()`). -/
def lowerStr (s : String) : String := String.mk (s.data.map lowerChar)

/-- The kline route's side filter: `['buy','sell','close'].includes(side.toLowerCase())`. -/
def sideAllowed (s : String) : Bool := ["buy", "sell", "close"].contains (lowerStr s)

/-- One row of the `ohlc` Supabase table as read by the kline-data route. -/
structure OhlcRow where
  date : ℕ
  openPrice : Option ℚ
  highPrice : Option ℚ
  lowPrice : Option ℚ
  closePrice : Option ℚ
deriving DecidableEq, Repr

/-- One row of the `trades` Supabase table as read by the kline-data route. -/
structure TradeRow where
  date : ℕ
  side : String
  qty : Option ℚ
  effective_price : Option ℚ
  price : Option ℚ
deriving DecidableEq, Repr

/-- One entry of the `ohlc` array returned by the kline-data route. -/
structure OhlcPoint where
  trade_date : ℕ
  openPrice : ℚ
  highPrice : ℚ
  lowPrice : ℚ
  closePrice : ℚ
deriving DecidableEq, Repr

/-- One entry of the `signals` array returned by the kline-data route. -/
structure SignalPoint where
  trade_date : ℕ
  signal : String
  quantity : ℚ
  price : ℚ
deriving DecidableEq, Repr

/-- The route's `uniqueOhlc`: dedupe by calendar day (last read row wins),
sort ascending by timestamp. -/
def uniqueOhlc (oRows : List OhlcRow) : List OhlcRow :=
  sortByKey (fun r => r.date) (dedupeByKey (fun r => dayKey r.date) oRows)

/-- The route's `uniqueTrades`: dedupe by calendar day (last read row wins),
sort ascending by timestamp. -/
def uniqueTrades (tRows : List TradeRow) : List TradeRow :=
  sortByKey (fun r => r.date) (dedupeByKey (fun r => dayKey r.date) tRows)

/-- Embedding of the `ohlc` array built by the kline-data GET handler. -/
def klineOhlc (oRows : List OhlcRow) : List OhlcPoint :=
  (uniqueOhlc oRows).map fun r =>
    { trade_date := r.date
      openPrice := r.openPrice.getD 0
      highPrice := r.highPrice.getD 0
      lowPrice := r.lowPrice.getD 0
      closePrice := r.closePrice.getD 0 }

/-- The signal price written by the kline route:
`Number((r.effective_price ?? r.price) ?? 0)`. -/
def signalPrice (r : TradeRow) : ℚ := (r.effective_price.or r.price).getD 0

/-- Embedding of the `signals` array built by the kline-data GET handler:
dedupe and sort the trades, keep only buy/sell/close sides (case-insensitive),
and project each surviving row. -/
def klineSignals (tRows : List TradeRow) : List SignalPoint :=
  ((uniqueTrades tRows).filter (fun r => sideAllowed r.side)).map fun r =>
    { trade_date := r.date
      signal := r.side
      quantity := r.qty.getD 0
      price := signalPrice r }

/-! ## Part B: backtest engine model

The Python engine (`backtest.py`, `simple_portfolio.py`,
`trade_decision_simple_AI.py`) is not included in the repository snapshot.
The definitions below are modelled from the spec (sections 3, 4.2-4.4) and
from the literal code fragments preserved in
`specs/review/round3/review.md` (guardrail patches, dynamic cooldown reset)
and `specs/rules/order.md` (T+1 hard block), with the fee and lot defaults
documented in the `backtest.py` variable notes. -/

/-- Trading action; the engine only ever handles these four
(`signal`: `buy`/`sell`/`close`/`hold`). -/
inductive Signal where
  | buy
  | sell
  | close
  | hold
deriving DecidableEq, Repr

/-- Modelled from the spec: the fixed-shape quant flag record computed each
day by `compute_strategy_flags` (file absent from the snapshot); field list
from spec section 3 plus `is_trend_buy_strict` used by the buy gate in
`review.md`. -/
structure QuantFlags where
  is_super_trend : Bool
  is_momentum_buy : Bool
  is_mean_reversion_buy : Bool
  is_exploratory_buy : Bool
  is_trend_buy_strict : Bool
  is_extreme_overbought : Bool
  is_cooldown_release_met : Bool
deriving DecidableEq, Repr

/-- Modelled from the spec: run configuration (spec section 6), with the
A-share defaults documented for `backtest.py` (lot 100, commission 0.0003
both ways, stamp duty 0.0005 sell-only, transfer fee 0.00001 Shanghai-only,
T+1 settlement). -/
structure Config where
  lot_size : ℕ
  commission_rate : ℚ
  stamp_duty_rate : ℚ
  transfer_fee_rate : ℚ
  transfer_applies : Bool
  settlement_offset : ℕ
  cooldown_days : ℕ
deriving DecidableEq, Repr

/-- Transfer fee actually charged (Shanghai yes, Shenzhen no). -/
def Config.transferRate (cfg : Config) : ℚ :=
  if cfg.transfer_applies then cfg.transfer_fee_rate else 0

/-- Total buy-side fee rate: commission plus transfer fee where applicable. -/
def Config.buyFeeRate (cfg : Config) : ℚ := cfg.commission_rate + cfg.transferRate

/-- Total sell-side fee rate: commission plus stamp duty plus transfer fee. -/
def Config.sellFeeRate (cfg : Config) : ℚ :=
  cfg.commission_rate + cfg.stamp_duty_rate + cfg.transferRate

/-- Fee-inclusive cost of one lot at the given price. -/
def Config.costPerLot (cfg : Config) (price : ℚ) : ℚ :=
  (cfg.lot_size : ℚ) * price * (1 + cfg.buyFeeRate)

/-- Configuration sanity required at run start (spec section 7: negative lot
size or rates outside the unit interval are fatal before day 1). -/
def validConfig (cfg : Config) : Prop :=
  0 < cfg.lot_size ∧ 0 ≤ cfg.commission_rate ∧ 0 ≤ cfg.stamp_duty_rate ∧
    0 ≤ cfg.transfer_fee_rate ∧ cfg.sellFeeRate ≤ 1

/-- Modelled from the spec: the portfolio record owned by the ledger
(spec section 3), with days numbered by ℕ. -/
structure PortfolioState where
  cash : ℚ
  position_shares : ℤ
  avg_entry_price : Option ℚ
  last_buy_date : Option ℕ
deriving DecidableEq, Repr

/-- T+1 hard block from `specs/rules/order.md`: a sell/close is blocked while
`date_T < can_sell_after`, i.e. while fewer than `settlement_offset` trading
days have passed since the most recent buy. -/
def settlementBlocked (cfg : Config) (st : PortfolioState) (day : ℕ) : Bool :=
  match st.last_buy_date with
  | some d => decide (day < d + cfg.settlement_offset)
  | none => false

/-- Largest number of whole lots whose fee-inclusive cost fits in `cash`
(part_009 notes: an unaffordable buy is cut down to the largest executable
lot count). -/
def maxAffordableLots (cfg : Config) (cash price : ℚ) : ℕ :=
  (⌊cash / cfg.costPerLot price⌋).toNat

/-- Extreme-overbought bar used by the super-trend sell exemption
(`review.md`: in a super trend only `RSI(6) > 90` may sell). -/
def extremeOverboughtRSI : ℚ := 90

/-- Ordinary overbought close trigger outside a super trend
(`review.md`: the pre-existing rule closes on `RSI > 80`, trims on `> 75`). -/
def overboughtCloseRSI : ℚ := 80

/-- Profit threshold for pyramiding (`review.md`: unrealized gain above 5%). -/
def pyramidProfitThreshold : ℚ := 1 / 20

/-- Dynamic cooldown release check from the `backtest.py` patch in
`review.md`: RSI(6) dropped below 40, or price sits on or just above the
20-day EMA (within 1.5%); absent or zero operands leave the flag unset. -/
def computeReleaseMet (rsi6 : Option ℚ) (price : ℚ) (ema20 : Option ℚ) : Bool :=
  (match rsi6 with
   | some v => decide (v < 40)
   | none => false) ||
  (match ema20 with
   | some e =>
     decide (price ≠ 0) && decide (e ≠ 0) && decide (e ≤ price) &&
       decide (price ≤ e * (203 / 200))
   | none => false)

/-- The buy gate's eligible-flag disjunction from `review.md`
(`is_trend_buy_strict or is_exploratory_buy or is_mean_reversion_buy or
is_momentum_buy or is_super_trend or is_cooldown_release_met`). -/
def anyBullish (f : QuantFlags) : Bool :=
  f.is_trend_buy_strict || f.is_exploratory_buy || f.is_mean_reversion_buy ||
    f.is_momentum_buy || f.is_super_trend || f.is_cooldown_release_met

/-- Pyramiding trigger from `review.md`: an open position (truthy average
entry and current price, positive average) whose unrealized gain exceeds the
5% threshold. -/
def pyramidTrigger (st : PortfolioState) (price : ℚ) : Bool :=
  match st.avg_entry_price with
  | some a =>
    decide (a ≠ 0) && decide (price ≠ 0) && decide (0 < a) &&
      decide (pyramidProfitThreshold < (price - a) / a)
  | none => false

/-- Sell-branch permit from `review.md`: when the sell-branch evaluation
raises (`except: pass`) the check is skipped and the sell stands; otherwise
in a super trend only `RSI(6) > 90` may sell (an absent RSI blocks), and
outside a super trend the proposed sell passes through. -/
def sellPermit (flags : QuantFlags) (sellErr : Bool) (rsi6 : Option ℚ) : Bool :=
  if sellErr then true
  else if flags.is_super_trend then
    match rsi6 with
    | some v => decide (extremeOverboughtRSI < v)
    | none => false
  else true

/-- One day of simulation input: market data, flags, the decision source's
proposed signal and size, and markers for guardrail blocks whose evaluation
raises an exception (the `except: pass` handlers in `review.md`). -/
structure DayInput where
  date : ℕ
  price : ℚ
  rsi6 : Option ℚ
  ema20 : Option ℚ
  flags : QuantFlags
  proposed : Signal
  req_lots : ℕ
  req_shares : ℕ
  cooldown_err : Bool
  pyramid_err : Bool
  sell_err : Bool
deriving DecidableEq, Repr

/-- The guardrail and sizing pipeline, from the `trade_decision_provider`
patches in `review.md` plus the T+1 hard block of `order.md` and the final
lot-and-budget clamp (spec section 4.3 rule 6, part_009 notes).  Buy path:
cooldown veto (skipped when its evaluation raises), bullish-flag gate,
pyramiding raise (skipped when its evaluation raises), then clamp to the
largest affordable lot count.  Sell/close path: settlement veto first, then
the super-trend permit (skipped when its evaluation raises), then clamp to
held shares. -/
def applyGuardrails (cfg : Config) (st : PortfolioState) (inCooldown : Bool)
    (inp : DayInput) : Signal × ℤ :=
  match inp.proposed with
  | Signal.hold => (Signal.hold, 0)
  | Signal.buy =>
    let step1 : Signal × ℕ :=
      if inp.cooldown_err = false ∧ inCooldown = true ∧
          inp.flags.is_cooldown_release_met = false then
        (Signal.hold, 0)
      else (Signal.buy, inp.req_lots)
    let step2 : Signal × ℕ :=
      if anyBullish inp.flags = false then (Signal.hold, 0) else step1
    let maxLots := maxAffordableLots cfg st.cash inp.price
    let q3 : ℕ :=
      if inp.pyramid_err = false ∧ pyramidTrigger st inp.price = true ∧
          inp.flags.is_momentum_buy = true then
        max step2.2 (maxLots / 2)
      else step2.2
    (step2.1, ((min q3 maxLots) * cfg.lot_size : ℕ))
  | Signal.sell =>
    if settlementBlocked cfg st inp.date = true then (Signal.hold, 0)
    else if sellPermit inp.flags inp.sell_err inp.rsi6 = true then
      (Signal.sell, min (inp.req_shares : ℤ) st.position_shares)
    else (Signal.hold, 0)
  | Signal.close =>
    if settlementBlocked cfg st inp.date = true then (Signal.hold, 0)
    else if sellPermit inp.flags inp.sell_err inp.rsi6 = true then
      (Signal.close, st.position_shares)
    else (Signal.hold, 0)

/-- One ledger row (the CSV row of `backtest.py` extended with the pre-trade
state fields needed to state the run-level properties). -/
structure Row where
  date : ℕ
  price : ℚ
  proposed : Signal
  final : Signal
  quantity : ℤ
  success : Bool
  cashBefore : ℚ
  cashAfter : ℚ
  positionBefore : ℤ
  positionAfter : ℤ
  lastBuyBefore : Option ℕ
deriving DecidableEq, Repr

/-- Row constructor recording the pre- and post-trade state. -/
def mkRow (st stNew : PortfolioState) (day : ℕ) (price : ℚ)
    (proposed finalSig : Signal) (qty : ℤ) (succ : Bool) : Row :=
  { date := day
    price := price
    proposed := proposed
    final := finalSig
    quantity := qty
    success := succ
    cashBefore := st.cash
    cashAfter := stNew.cash
    positionBefore := st.position_shares
    positionAfter := stNew.position_shares
    lastBuyBefore := st.last_buy_date }

/-- Modelled from the spec: the ledger's sell/close execution
(spec section 4.4): requires a positive quantity within the held shares and
the settlement offset satisfied (re-validated defensively); proceeds are
fee-adjusted; the average entry price survives partial sells and clears on a
full exit; `success = false` leaves the state untouched. -/
def sellExec (cfg : Config) (st : PortfolioState) (day : ℕ) (price : ℚ)
    (proposed finalSig : Signal) (qty : ℤ) : PortfolioState × Row :=
  if 0 < qty ∧ qty ≤ st.position_shares ∧ settlementBlocked cfg st day = false then
    let proceeds := (qty : ℚ) * price * (1 - cfg.sellFeeRate)
    let newPos := st.position_shares - qty
    let stNew : PortfolioState :=
      { cash := st.cash + proceeds
        position_shares := newPos
        avg_entry_price := if newPos = 0 then none else st.avg_entry_price
        last_buy_date := st.last_buy_date }
    (stNew, mkRow st stNew day price proposed finalSig qty true)
  else (st, mkRow st st day price proposed finalSig qty false)

/-- Modelled from the spec: the ledger applying a final order
(spec section 4.4).  A buy requires a positive quantity whose fee-inclusive
cost fits in cash (re-validated defensively even though the guardrail already
clamped), pays the cost, re-weights the average entry price and stamps the
settlement anchor; a hold never mutates state; `success` records whether an
action actually executed (part_009: 1 = executed, 0 = not executed). -/
def applyOrder (cfg : Config) (st : PortfolioState) (day : ℕ) (price : ℚ)
    (proposed finalSig : Signal) (qty : ℤ) : PortfolioState × Row :=
  match finalSig with
  | Signal.buy =>
    let cost := (qty : ℚ) * price * (1 + cfg.buyFeeRate)
    if 0 < qty ∧ cost ≤ st.cash then
      let newPos := st.position_shares + qty
      let stNew : PortfolioState :=
        { cash := st.cash - cost
          position_shares := newPos
          avg_entry_price :=
            some (((st.position_shares : ℚ) * (st.avg_entry_price.getD 0) +
              (qty : ℚ) * price) / (newPos : ℚ))
          last_buy_date := some day }
      (stNew, mkRow st stNew day price proposed Signal.buy qty true)
    else (st, mkRow st st day price proposed Signal.buy qty false)
  | Signal.sell => sellExec cfg st day price proposed Signal.sell qty
  | Signal.close => sellExec cfg st day price proposed Signal.close qty
  | Signal.hold => (st, mkRow st st day price proposed Signal.hold 0 false)

/-- One simulated trading day: dynamic cooldown reset (the `backtest.py`
patch in `review.md`: a locked cooldown ends immediately when the release
condition holds), guardrail evaluation against the possibly-released
cooldown, ledger execution, and cooldown entry on an executed sell/close
(spec section 4.2). -/
def stepDay (cfg : Config) (st : PortfolioState) (cool : Option ℕ)
    (inp : DayInput) : PortfolioState × Option ℕ × Row :=
  let cool1 : Option ℕ :=
    match cool with
    | some u =>
      if inp.date < u ∧ computeReleaseMet inp.rsi6 inp.price inp.ema20 = true then
        none
      else cool
    | none => none
  let inCooldown : Bool :=
    match cool1 with
    | some u => decide (inp.date < u)
    | none => false
  let g := applyGuardrails cfg st inCooldown inp
  let res := applyOrder cfg st inp.date inp.price inp.proposed g.1 g.2
  let cool2 : Option ℕ :=
    if (g.1 = Signal.sell ∨ g.1 = Signal.close) ∧ res.2.success = true then
      some (inp.date + cfg.cooldown_days)
    else cool1
  (res.1, cool2, res.2)

/-- Modelled from the spec: the simulation driver's day loop
(spec section 4.5), threading portfolio and cooldown state through the
ordered day list and appending one ledger row per day. -/
def runDays (cfg : Config) : PortfolioState → Option ℕ → List DayInput →
    PortfolioState × Option ℕ × List Row
  | st, cool, [] => (st, cool, [])
  | st, cool, inp :: rest =>
    let r := stepDay cfg st cool inp
    let rr := runDays cfg r.1 r.2.1 rest
    (rr.1, rr.2.1, r.2.2 :: rr.2.2)

/-- Settlement lock condition restated on a recorded ledger row: the most
recent buy before the row was fewer than `settlement_offset` days back. -/
def rowSettlementLocked (cfg : Config) (row : Row) : Prop :=
  ∃ d, row.lastBuyBefore = some d ∧ row.date < d + cfg.settlement_offset

/-! ### Concrete fixtures used by the witnesses -/

/-- Fee-free test configuration with a two-day settlement offset. -/
def cfgW : Config :=
  { lot_size := 100, commission_rate := 0, stamp_duty_rate := 0
    transfer_fee_rate := 0, transfer_applies := false
    settlement_offset := 2, cooldown_days := 5 }

/-- The documented A-share defaults for a Shanghai symbol: lot 100,
commission 0.0003, stamp duty 0.0005, transfer fee 0.00001, T+1. -/
def cfgA : Config :=
  { lot_size := 100, commission_rate := 3 / 10000, stamp_duty_rate := 5 / 10000
    transfer_fee_rate := 1 / 100000, transfer_applies := true
    settlement_offset := 1, cooldown_days := 5 }

/-- Flags with only the momentum buy set. -/
def flagsMomentum : QuantFlags :=
  { is_super_trend := false, is_momentum_buy := true, is_mean_reversion_buy := false
    is_exploratory_buy := false, is_trend_buy_strict := false
    is_extreme_overbought := false, is_cooldown_release_met := false }

/-- Flags with only the super-trend regime set. -/
def flagsSuper : QuantFlags :=
  { is_super_trend := true, is_momentum_buy := false, is_mean_reversion_buy := false
    is_exploratory_buy := false, is_trend_buy_strict := false
    is_extreme_overbought := false, is_cooldown_release_met := false }

/-- Flags with nothing set. -/
def flagsQuiet : QuantFlags :=
  { is_super_trend := false, is_momentum_buy := false, is_mean_reversion_buy := false
    is_exploratory_buy := false, is_trend_buy_strict := false
    is_extreme_overbought := false, is_cooldown_release_met := false }

/-- Fresh account with the default initial cash. -/
def stInit : PortfolioState :=
  { cash := 100000, position_shares := 0, avg_entry_price := none, last_buy_date := none }

/-- Account holding one lot bought on day 5 at 20. -/
def stHeld : PortfolioState :=
  { cash := 98000, position_shares := 100, avg_entry_price := some 20
    last_buy_date := some 5 }

/-- Account holding one lot at average entry 20 with no recent buy. -/
def stProfit : PortfolioState :=
  { cash := 50000, position_shares := 100, avg_entry_price := some 20
    last_buy_date := none }

/-- Day input proposing a sell one day after the day-5 buy of `stHeld`. -/
def inpSellBlocked : DayInput :=
  { date := 6, price := 21, rsi6 := some 50, ema20 := none, flags := flagsMomentum
    proposed := Signal.sell, req_lots := 0, req_shares := 100
    cooldown_err := false, pyramid_err := false, sell_err := false }

/-- Day input proposing a plain one-lot buy at 20. -/
def inpBuyPlain : DayInput :=
  { date := 5, price := 20, rsi6 := some 50, ema20 := none, flags := flagsMomentum
    proposed := Signal.buy, req_lots := 1, req_shares := 0
    cooldown_err := false, pyramid_err := false, sell_err := false }

/-- Scenario C input: super trend with RSI 85 and a proposed sell. -/
def inpSell85 : DayInput :=
  { date := 30, price := 25, rsi6 := some 85, ema20 := none, flags := flagsSuper
    proposed := Signal.sell, req_lots := 0, req_shares := 100
    cooldown_err := false, pyramid_err := false, sell_err := false }

/-- Scenario D input: oversold reading (RSI 30) releasing the cooldown on a
day its lockout has not yet reached, with an otherwise eligible buy. -/
def inpRelease : DayInput :=
  { date := 10, price := 20, rsi6 := some 30, ema20 := none, flags := flagsMomentum
    proposed := Signal.buy, req_lots := 1, req_shares := 0
    cooldown_err := false, pyramid_err := false, sell_err := false }

/-- Input whose cooldown-check evaluation raises while a cooldown is active
and no release condition holds (RSI 70, price far above the EMA band). -/
def inpErrBuy : DayInput :=
  { date := 50, price := 20, rsi6 := some 70, ema20 := some 10, flags := flagsMomentum
    proposed := Signal.buy, req_lots := 1, req_shares := 0
    cooldown_err := true, pyramid_err := false, sell_err := false }

/-- Scenario E input: price 21.2 over average entry 20 (6% unrealized gain),
momentum set, small one-lot base request. -/
def inpPyr : DayInput :=
  { date := 40, price := 212 / 10, rsi6 := some 50, ema20 := none, flags := flagsMomentum
    proposed := Signal.buy, req_lots := 1, req_shares := 0
    cooldown_err := false, pyramid_err := false, sell_err := false }

/-- Buy proposed on a day with no bullish flag set. -/
def inpQuietBuy : DayInput :=
  { date := 40, price := 20, rsi6 := some 50, ema20 := none, flags := flagsQuiet
    proposed := Signal.buy, req_lots := 1, req_shares := 0
    cooldown_err := false, pyramid_err := false, sell_err := false }

/-- Scenario A input: buy signal with plenty of requested size at price 20. -/
def inpA : DayInput :=
  { date := 1, price := 20, rsi6 := some 50, ema20 := none, flags := flagsMomentum
    proposed := Signal.buy, req_lots := 1000, req_shares := 0
    cooldown_err := false, pyramid_err := false, sell_err := false }

/-- Sell whose sell-branch evaluation raises, proposed with no settlement
lock in force. -/
def inpErrSell : DayInput :=
  { date := 9, price := 22, rsi6 := some 50, ema20 := none, flags := flagsSuper
    proposed := Signal.sell, req_lots := 0, req_shares := 100
    cooldown_err := false, pyramid_err := false, sell_err := true }

/-- Default metrics row used with `List.getD`. -/
def mrDefault : MetricRow := { date := 0, equity := none }

/-- Metrics fixture: three rows, the last two on the same calendar day. -/
def mrowsW : List MetricRow :=
  [{ date := 0, equity := some 100000 }, { date := msPerDay, equity := some 101000 },
    { date := msPerDay + 1, equity := some 102000 }]

/-- Metrics fixture describing a profitable run. -/
def mrowsUp : List MetricRow :=
  [{ date := 0, equity := some 100000 }, { date := msPerDay, equity := some 120000 }]

/-- Metrics fixture describing a losing run. -/
def mrowsDown : List MetricRow :=
  [{ date := 0, equity := some 100000 }, { date := msPerDay, equity := some 80000 }]

/-- Trades fixture: an executable buy, a hold (must be filtered out), and an
upper-case sell (must survive the case-insensitive filter). -/
def tradesW : List TradeRow :=
  [{ date := 0, side := "buy", qty := some 100, effective_price := some 20, price := some 19 },
    { date := msPerDay, side := "hold", qty := some 0, effective_price := none, price := some 20 },
    { date := 2 * msPerDay, side := "SELL", qty := some 100, effective_price := none, price := some 21 }]

/-- Expected first signal produced from `tradesW`. -/
def sigBuyW : SignalPoint :=
  { trade_date := 0, signal := "buy", quantity := 100, price := 20 }

/-- Expected second signal produced from `tradesW` (upper-case side kept). -/
def sigSellW : SignalPoint :=
  { trade_date := 2 * msPerDay, signal := "SELL", quantity := 100, price := 21 }

/-- OHLC fixture: two days, the second with null fields. -/
def ohlcW : List OhlcRow :=
  [{ date := 0, openPrice := some 1, highPrice := some 2, lowPrice := some 3, closePrice := some 4 },
    { date := msPerDay, openPrice := none, highPrice := none, lowPrice := none, closePrice := none }]

section DedupeLemmas

variable {α : Type} (key : α → ℕ)

theorem upsertPair_fst_eq_key (acc : List (ℕ × α)) (r : α)
    (hwf : ∀ p ∈ acc, p.1 = key p.2) :
    ∀ p ∈ upsertPair key acc r, p.1 = key p.2 := by
  intro p hp
  unfold upsertPair at hp
  split at hp
  · rcases List.mem_map.mp hp with ⟨q, hq, hfq⟩
    by_cases h : q.1 = key r
    · rw [if_pos h] at hfq
      rw [← hfq]
      exact h
    · rw [if_neg h] at hfq
      rw [← hfq]; exact hwf q hq
  · rcases List.mem_append.mp hp with h | h
    · exact hwf p h
    · simp only [List.mem_singleton] at h
      simp [h]

theorem upsertPair_pairwise (acc : List (ℕ × α)) (r : α)
    (hd : acc.Pairwise (fun p q => p.1 ≠ q.1)) :
    (upsertPair key acc r).Pairwise (fun p q => p.1 ≠ q.1) := by
  unfold upsertPair
  split
  · refine (List.pairwise_map).mpr ?_
    refine hd.imp ?_
    intro a b hab
    have ha : (if a.1 = key r then (a.1, r) else a).1 = a.1 := by split <;> rfl
    have hb : (if b.1 = key r then (b.1, r) else b).1 = b.1 := by split <;> rfl
    simpa [ha, hb] using hab
  · next hnone =>
    rw [List.pairwise_append]
    refine ⟨hd, by simp, ?_⟩
    intro p hp q hq
    simp only [List.mem_singleton] at hq
    subst hq
    intro hcontra
    exact hnone (List.any_eq_true.mpr ⟨p, hp, by simp [hcontra]⟩)

theorem upsertPair_mem (acc : List (ℕ × α)) (r : α) :
    ∀ p ∈ upsertPair key acc r, p.2 = r ∨ p ∈ acc := by
  intro p hp
  unfold upsertPair at hp
  split at hp
  · rcases List.mem_map.mp hp with ⟨q, hq, hfq⟩
    by_cases h : q.1 = key r
    · rw [if_pos h] at hfq
      left; rw [← hfq]
    · rw [if_neg h] at hfq
      right; rw [← hfq]; exact hq
  · rcases List.mem_append.mp hp with h | h
    · right; exact h
    · left; simp only [List.mem_singleton] at h; simp [h]

theorem upsertPair_key_mem (acc : List (ℕ × α)) (r : α) (k : ℕ)
    (h : (∃ p ∈ acc, p.1 = k) ∨ key r = k) :
    ∃ p ∈ upsertPair key acc r, p.1 = k := by
  unfold upsertPair
  split
  · next hany =>
    rcases h with ⟨p, hp, hpk⟩ | hk
    · refine ⟨(if p.1 = key r then (p.1, r) else p), List.mem_map.mpr ⟨p, hp, rfl⟩, ?_⟩
      by_cases hc : p.1 = key r
      · rw [if_pos hc]; exact hpk
      · rw [if_neg hc]; exact hpk
    · rcases List.any_eq_true.mp hany with ⟨p, hp, hpk⟩
      simp only [decide_eq_true_eq] at hpk
      exact ⟨(p.1, r), List.mem_map.mpr ⟨p, hp, by simp [hpk]⟩, by rw [hpk, hk]⟩
  · rcases h with ⟨p, hp, hpk⟩ | hk
    · exact ⟨p, List.mem_append_left _ hp, hpk⟩
    · exact ⟨(key r, r), List.mem_append_right _ (by simp), hk⟩

theorem lookupAcc_map_replace (acc : List (ℕ × α)) (r : α) (k : ℕ) :
    lookupAcc (acc.map (fun p => if p.1 = key r then (p.1, r) else p)) k =
      if key r = k then (lookupAcc acc k).map (fun _ => r) else lookupAcc acc k := by
  induction acc with
  | nil => simp [lookupAcc]
  | cons q rest ih =>
    have hq1 : (if q.1 = key r then (q.1, r) else q).1 = q.1 := by split <;> rfl
    by_cases hqk : q.1 = k
    · unfold lookupAcc
      rw [List.map_cons, List.find?_cons_of_pos _ (by simpa [hq1] using hqk),
        List.find?_cons_of_pos _ (by simpa using hqk)]
      by_cases hrk : key r = k
      · have : q.1 = key r := by rw [hqk, hrk]
        simp [this, hrk]
      · have : ¬ q.1 = key r := fun h => hrk (by rw [← h, hqk])
        simp [this, hrk]
    · unfold lookupAcc at ih ⊢
      rw [List.map_cons, List.find?_cons_of_neg _ (by simpa [hq1] using hqk),
        List.find?_cons_of_neg _ (by simpa using hqk)]
      exact ih

theorem lookupAcc_isSome (acc : List (ℕ × α)) (k : ℕ)
    (h : ∃ p ∈ acc, p.1 = k) : ∃ v, lookupAcc acc k = some v := by
  induction acc with
  | nil => simp at h
  | cons q rest ih =>
    by_cases hqk : q.1 = k
    · exact ⟨q.2, by unfold lookupAcc; rw [List.find?_cons_of_pos _ (by simpa using hqk)]; rfl⟩
    · rcases h with ⟨p, hp, hpk⟩
      rcases List.mem_cons.mp hp with hpq | hpr
      · exact absurd (hpq ▸ hpk) hqk
      · rcases ih ⟨p, hpr, hpk⟩ with ⟨v, hv⟩
        refine ⟨v, ?_⟩
        unfold lookupAcc at hv ⊢
        rw [List.find?_cons_of_neg _ (by simpa using hqk)]
        exact hv

theorem lookupAcc_upsertPair (acc : List (ℕ × α)) (r : α) (k : ℕ) :
    lookupAcc (upsertPair key acc r) k =
      if key r = k then some r else lookupAcc acc k := by
  unfold upsertPair
  split
  · next hany =>
    rw [lookupAcc_map_replace]
    by_cases hrk : key r = k
    · rcases List.any_eq_true.mp hany with ⟨p, hp, hpk⟩
      simp only [decide_eq_true_eq] at hpk
      rcases lookupAcc_isSome acc k ⟨p, hp, by rw [hpk, hrk]⟩ with ⟨v, hv⟩
      simp [hrk, hv]
    · simp [hrk]
  · next hnone =>
    unfold lookupAcc
    rw [List.find?_append]
    by_cases hrk : key r = k
    · have hfirst : acc.find? (fun p => decide (p.1 = k)) = none := by
        rw [List.find?_eq_none]
        intro p hp
        simp only [decide_eq_true_eq]
        intro hpk
        exact hnone (List.any_eq_true.mpr ⟨p, hp, by simp [hpk, hrk]⟩)
      simp [hfirst, hrk]
    · have hlast : List.find? (fun p => decide (p.1 = k)) [(key r, r)] = none := by
        simp [List.find?, hrk]
      rw [hlast]
      simp [hrk]

theorem lookupAcc_mem (acc : List (ℕ × α)) (p : ℕ × α)
    (hd : acc.Pairwise (fun a b => a.1 ≠ b.1)) (hp : p ∈ acc) :
    lookupAcc acc p.1 = some p.2 := by
  induction acc with
  | nil => simp at hp
  | cons q rest ih =>
    rcases List.mem_cons.mp hp with hpq | hpr
    · subst hpq
      unfold lookupAcc
      rw [List.find?_cons_of_pos _ (by simp)]
      rfl
    · have hq : q.1 ≠ p.1 := (List.pairwise_cons.mp hd).1 p hpr
      unfold lookupAcc
      rw [List.find?_cons_of_neg _ (by simpa using hq)]
      exact ih (List.pairwise_cons.mp hd).2 hpr

theorem dedupePairs_invariants (rows : List α) :
    ∀ acc : List (ℕ × α), (∀ p ∈ acc, p.1 = key p.2) →
      acc.Pairwise (fun a b => a.1 ≠ b.1) →
      (∀ p ∈ dedupePairs key rows acc, p.1 = key p.2) ∧
        (dedupePairs key rows acc).Pairwise (fun a b => a.1 ≠ b.1) := by
  induction rows with
  | nil => intro acc hwf hd; exact ⟨hwf, hd⟩
  | cons r rest ih =>
    intro acc hwf hd
    exact ih (upsertPair key acc r) (upsertPair_fst_eq_key key acc r hwf)
      (upsertPair_pairwise key acc r hd)

theorem dedupePairs_mem (rows : List α) :
    ∀ acc : List (ℕ × α), ∀ p ∈ dedupePairs key rows acc, p.2 ∈ rows ∨ p ∈ acc := by
  induction rows with
  | nil => intro acc p hp; exact Or.inr hp
  | cons r rest ih =>
    intro acc p hp
    rcases ih (upsertPair key acc r) p hp with h | h
    · exact Or.inl (List.mem_cons_of_mem _ h)
    · rcases upsertPair_mem key acc r p h with h2 | h2
      · exact Or.inl (h2 ▸ List.mem_cons_self _ _)
      · exact Or.inr h2

theorem dedupePairs_lastWithKey (rows : List α) :
    ∀ acc : List (ℕ × α), (∀ p ∈ acc, p.1 = key p.2) →
      acc.Pairwise (fun a b => a.1 ≠ b.1) →
      ∀ p ∈ dedupePairs key rows acc,
        lastWithKeyAux key p.1 (lookupAcc acc p.1) rows = some p.2 := by
  induction rows with
  | nil =>
    intro acc hwf hd p hp
    exact lookupAcc_mem acc p hd hp
  | cons r rest ih =>
    intro acc hwf hd p hp
    have step := ih (upsertPair key acc r) (upsertPair_fst_eq_key key acc r hwf)
      (upsertPair_pairwise key acc r hd) p hp
    show lastWithKeyAux key p.1
      (if key r = p.1 then some r else lookupAcc acc p.1) rest = some p.2
    rw [← lookupAcc_upsertPair]
    exact step

theorem dedupePairs_covers (rows : List α) :
    ∀ (acc : List (ℕ × α)) (k : ℕ),
      ((∃ p ∈ acc, p.1 = k) ∨ (∃ r ∈ rows, key r = k)) →
      ∃ p ∈ dedupePairs key rows acc, p.1 = k := by
  induction rows with
  | nil =>
    intro acc k h
    rcases h with h | h
    · exact h
    · simp at h
  | cons r rest ih =>
    intro acc k h
    rcases h with h | ⟨s, hs, hsk⟩
    · exact ih (upsertPair key acc r) k (Or.inl (upsertPair_key_mem key acc r k (Or.inl h)))
    · rcases List.mem_cons.mp hs with hsr | hsr
      · exact ih (upsertPair key acc r) k
          (Or.inl (upsertPair_key_mem key acc r k (Or.inr (by rw [← hsr]; exact hsk))))
      · exact ih (upsertPair key acc r) k (Or.inr ⟨s, hsr, hsk⟩)

theorem dedupeByKey_pairwise (rows : List α) :
    (dedupeByKey key rows).Pairwise (fun a b => key a ≠ key b) := by
  rcases dedupePairs_invariants key rows [] (by simp) (by simp) with ⟨hwf, hd⟩
  unfold dedupeByKey
  refine (List.pairwise_map).mpr (hd.imp_of_mem ?_)
  intro a b ha hb hne
  rw [← hwf a ha, ← hwf b hb]
  exact hne

theorem dedupeByKey_mem (rows : List α) :
    ∀ r ∈ dedupeByKey key rows, r ∈ rows := by
  intro r hr
  rcases List.mem_map.mp hr with ⟨p, hp, hps⟩
  rcases dedupePairs_mem key rows [] p hp with h | h
  · exact hps ▸ h
  · simp at h

theorem dedupeByKey_lastWithKey (rows : List α) :
    ∀ r ∈ dedupeByKey key rows, lastWithKey key rows (key r) = some r := by
  intro r hr
  rcases List.mem_map.mp hr with ⟨p, hp, hps⟩
  rcases dedupePairs_invariants key rows [] (by simp) (by simp) with ⟨hwf, _⟩
  have hk : p.1 = key r := by rw [← hps]; exact hwf p hp
  have h2 : lastWithKeyAux key (key r) none rows = some p.2 := by
    have h3 := dedupePairs_lastWithKey key rows [] (by simp) (by simp) p hp
    rw [hk] at h3
    simpa [lookupAcc] using h3
  rw [hps] at h2
  exact h2

theorem dedupeByKey_covers (rows : List α) :
    ∀ r ∈ rows, ∃ s ∈ dedupeByKey key rows, key s = key r := by
  intro r hr
  rcases dedupePairs_covers key rows [] (key r) (Or.inr ⟨r, hr, rfl⟩) with ⟨p, hp, hpk⟩
  rcases dedupePairs_invariants key rows [] (by simp) (by simp) with ⟨hwf, _⟩
  refine ⟨p.2, List.mem_map.mpr ⟨p, hp, rfl⟩, ?_⟩
  rw [← hwf p hp]
  exact hpk

theorem insertByKey_perm (r : α) (l : List α) :
    (insertByKey key r l).Perm (r :: l) := by
  induction l with
  | nil => simp [insertByKey]
  | cons s rest ih =>
    unfold insertByKey
    split
    · exact List.Perm.refl _
    · exact (List.Perm.cons s ih).trans (List.Perm.swap r s rest)

theorem sortByKey_perm (l : List α) : (sortByKey key l).Perm l := by
  induction l with
  | nil => simp [sortByKey]
  | cons r rest ih =>
    exact ((insertByKey_perm key r (sortByKey key rest)).trans
      (List.Perm.cons r ih))

theorem insertByKey_pairwise (r : α) (l : List α)
    (h : l.Pairwise (fun a b => key a ≤ key b)) :
    (insertByKey key r l).Pairwise (fun a b => key a ≤ key b) := by
  induction l with
  | nil => simp [insertByKey]
  | cons s rest ih =>
    rcases List.pairwise_cons.mp h with ⟨hs, hrest⟩
    unfold insertByKey
    split
    · next hlt =>
      refine List.pairwise_cons.mpr ⟨?_, h⟩
      intro x hx
      rcases List.mem_cons.mp hx with hxs | hxr
      · exact hxs ▸ Nat.le_of_lt hlt
      · exact Nat.le_trans (Nat.le_of_lt hlt) (hs x hxr)
    · next hge =>
      refine List.pairwise_cons.mpr ⟨?_, ih hrest⟩
      intro x hx
      rcases List.mem_cons.mp ((insertByKey_perm key r rest).mem_iff.mp hx) with hxs | hxr
      · exact hxs ▸ Nat.le_of_not_lt hge
      · exact hs x hxr

theorem sortByKey_sorted (l : List α) :
    (sortByKey key l).Pairwise (fun a b => key a ≤ key b) := by
  induction l with
  | nil => simp [sortByKey]
  | cons r rest ih => exact insertByKey_pairwise key r _ ih

end DedupeLemmas


/-! ### Engine helper lemmas -/

theorem applyOrder_row_base (cfg : Config) (st : PortfolioState) (day : ℕ) (price : ℚ)
    (proposed finalSig : Signal) (qty : ℤ) :
    (applyOrder cfg st day price proposed finalSig qty).2.date = day ∧
    (applyOrder cfg st day price proposed finalSig qty).2.price = price ∧
    (applyOrder cfg st day price proposed finalSig qty).2.proposed = proposed ∧
    (applyOrder cfg st day price proposed finalSig qty).2.cashBefore = st.cash ∧
    (applyOrder cfg st day price proposed finalSig qty).2.positionBefore = st.position_shares ∧
    (applyOrder cfg st day price proposed finalSig qty).2.lastBuyBefore = st.last_buy_date ∧
    (applyOrder cfg st day price proposed finalSig qty).2.cashAfter =
      (applyOrder cfg st day price proposed finalSig qty).1.cash ∧
    (applyOrder cfg st day price proposed finalSig qty).2.positionAfter =
      (applyOrder cfg st day price proposed finalSig qty).1.position_shares := by
  cases finalSig <;> simp only [applyOrder, sellExec] <;> (try split_ifs) <;> simp [mkRow]

theorem stepDay_row_base (cfg : Config) (st : PortfolioState) (cool : Option ℕ)
    (inp : DayInput) :
    (stepDay cfg st cool inp).2.2.date = inp.date ∧
    (stepDay cfg st cool inp).2.2.price = inp.price ∧
    (stepDay cfg st cool inp).2.2.proposed = inp.proposed ∧
    (stepDay cfg st cool inp).2.2.cashBefore = st.cash ∧
    (stepDay cfg st cool inp).2.2.positionBefore = st.position_shares ∧
    (stepDay cfg st cool inp).2.2.lastBuyBefore = st.last_buy_date ∧
    (stepDay cfg st cool inp).2.2.cashAfter = (stepDay cfg st cool inp).1.cash ∧
    (stepDay cfg st cool inp).2.2.positionAfter =
      (stepDay cfg st cool inp).1.position_shares := by
  simp only [stepDay]
  exact applyOrder_row_base cfg st inp.date inp.price inp.proposed _ _

theorem applyOrder_nonneg (cfg : Config) (st : PortfolioState) (day : ℕ) (price : ℚ)
    (proposed finalSig : Signal) (qty : ℤ)
    (hv : validConfig cfg) (hp : 0 ≤ price) (hc : 0 ≤ st.cash)
    (hs : 0 ≤ st.position_shares) :
    0 ≤ (applyOrder cfg st day price proposed finalSig qty).1.cash ∧
      0 ≤ (applyOrder cfg st day price proposed finalSig qty).1.position_shares := by
  rcases hv with ⟨_, _, _, _, hsf⟩
  cases finalSig
  case buy =>
    simp only [applyOrder]
    split_ifs with h
    · rcases h with ⟨hq, hcost⟩
      dsimp only
      exact ⟨by linarith, add_nonneg hs hq.le⟩
    · dsimp only
      exact ⟨hc, hs⟩
  case sell =>
    simp only [applyOrder, sellExec]
    by_cases h : 0 < qty ∧ qty ≤ st.position_shares ∧ settlementBlocked cfg st day = false
    · rw [if_pos h]
      rcases h with ⟨hq, hle, _⟩
      dsimp only
      have hqq : (0 : ℚ) ≤ (qty : ℚ) := by exact_mod_cast hq.le
      have hfee : (0 : ℚ) ≤ 1 - cfg.sellFeeRate := by linarith
      have hpr : 0 ≤ (qty : ℚ) * price * (1 - cfg.sellFeeRate) :=
        mul_nonneg (mul_nonneg hqq hp) hfee
      exact ⟨by linarith, by omega⟩
    · rw [if_neg h]
      dsimp only
      exact ⟨hc, hs⟩
  case close =>
    simp only [applyOrder, sellExec]
    by_cases h : 0 < qty ∧ qty ≤ st.position_shares ∧ settlementBlocked cfg st day = false
    · rw [if_pos h]
      rcases h with ⟨hq, hle, _⟩
      dsimp only
      have hqq : (0 : ℚ) ≤ (qty : ℚ) := by exact_mod_cast hq.le
      have hfee : (0 : ℚ) ≤ 1 - cfg.sellFeeRate := by linarith
      have hpr : 0 ≤ (qty : ℚ) * price * (1 - cfg.sellFeeRate) :=
        mul_nonneg (mul_nonneg hqq hp) hfee
      exact ⟨by linarith, by omega⟩
    · rw [if_neg h]
      dsimp only
      exact ⟨hc, hs⟩
  case hold =>
    dsimp only [applyOrder]
    exact ⟨hc, hs⟩

theorem stepDay_nonneg (cfg : Config) (st : PortfolioState) (cool : Option ℕ)
    (inp : DayInput) (hv : validConfig cfg) (hp : 0 ≤ inp.price) (hc : 0 ≤ st.cash)
    (hs : 0 ≤ st.position_shares) :
    0 ≤ (stepDay cfg st cool inp).1.cash ∧
      0 ≤ (stepDay cfg st cool inp).1.position_shares := by
  simp only [stepDay]
  exact applyOrder_nonneg cfg st inp.date inp.price inp.proposed _ _ hv hp hc hs

theorem runDays_length (cfg : Config) :
    ∀ (inputs : List DayInput) (st : PortfolioState) (cool : Option ℕ),
      ((runDays cfg st cool inputs).2.2).length = inputs.length := by
  intro inputs
  induction inputs with
  | nil => intro st cool; rfl
  | cons inp rest ih =>
    intro st cool
    simp only [runDays, List.length_cons]
    rw [ih]

theorem guardrail_blocked (cfg : Config) (st : PortfolioState) (inCd : Bool)
    (inp : DayInput)
    (hp : inp.proposed = Signal.sell ∨ inp.proposed = Signal.close)
    (hb : settlementBlocked cfg st inp.date = true) :
    applyGuardrails cfg st inCd inp = (Signal.hold, 0) := by
  rcases hp with hp | hp <;> simp [applyGuardrails, hp, hb]

theorem stepDay_blocked (cfg : Config) (st : PortfolioState) (cool : Option ℕ)
    (inp : DayInput)
    (hp : inp.proposed = Signal.sell ∨ inp.proposed = Signal.close)
    (hb : settlementBlocked cfg st inp.date = true) :
    (stepDay cfg st cool inp).1 = st ∧
    (stepDay cfg st cool inp).2.2.final = Signal.hold ∧
    (stepDay cfg st cool inp).2.2.quantity = 0 ∧
    (stepDay cfg st cool inp).2.2.success = false := by
  simp only [stepDay, guardrail_blocked cfg st _ inp hp hb]
  simp [applyOrder, mkRow]

theorem lots_cost_le (cfg : Config) (cash price : ℚ) (hcash : 0 ≤ cash) (lots : ℕ)
    (h : lots ≤ maxAffordableLots cfg cash price) :
    ((lots * cfg.lot_size : ℕ) : ℚ) * price * (1 + cfg.buyFeeRate) ≤ cash := by
  rcases le_or_lt (cfg.costPerLot price) 0 with hle | hpos
  · have hdiv : cash / cfg.costPerLot price ≤ 0 := by
      rcases hle.lt_or_eq with hlt | heq
      · exact div_nonpos_of_nonneg_of_nonpos hcash hle
      · rw [heq, div_zero]
    have hfloor : ⌊cash / cfg.costPerLot price⌋ ≤ 0 := Int.floor_nonpos hdiv
    have hz : maxAffordableLots cfg cash price = 0 := by
      unfold maxAffordableLots
      exact Int.toNat_of_nonpos hfloor
    have hl0 : lots = 0 := Nat.le_zero.mp (hz ▸ h)
    subst hl0
    simpa using hcash
  · have hfl : 0 ≤ ⌊cash / cfg.costPerLot price⌋ :=
      Int.floor_nonneg.mpr (div_nonneg hcash hpos.le)
    have h1 : (lots : ℤ) ≤ ⌊cash / cfg.costPerLot price⌋ := (Int.le_toNat hfl).mp h
    have h2 : (lots : ℚ) ≤ cash / cfg.costPerLot price := by
      calc (lots : ℚ) ≤ (⌊cash / cfg.costPerLot price⌋ : ℚ) := by exact_mod_cast h1
        _ ≤ cash / cfg.costPerLot price := Int.floor_le _
    have h3 : (lots : ℚ) * cfg.costPerLot price ≤ cash := (le_div_iff hpos).mp h2
    calc ((lots * cfg.lot_size : ℕ) : ℚ) * price * (1 + cfg.buyFeeRate)
        = (lots : ℚ) * cfg.costPerLot price := by
          unfold Config.costPerLot
          push_cast
          ring
      _ ≤ cash := h3

/-! ### Claim theorems -/

/-- C1: on every generated sequence of trading days, a sell or close proposed
while the most recent buy of the position is still inside the settlement
offset is never executed: whatever the flags, cooldown or requested size, the
row is forced to hold with quantity 0 and success false, and the portfolio
(cash and position) is unchanged by the attempt. -/
theorem settlement_veto_never_executes (cfg : Config) :
    ∀ (inputs : List DayInput) (st : PortfolioState) (cool : Option ℕ),
      ∀ row ∈ (runDays cfg st cool inputs).2.2,
        (row.proposed = Signal.sell ∨ row.proposed = Signal.close) →
        rowSettlementLocked cfg row →
        row.final = Signal.hold ∧ row.quantity = 0 ∧ row.success = false ∧
          row.cashAfter = row.cashBefore ∧ row.positionAfter = row.positionBefore := by
  intro inputs
  induction inputs with
  | nil =>
    intro st cool row hrow
    simp [runDays] at hrow
  | cons inp rest ih =>
    intro st cool row hrow hp hl
    have hrow2 : row = (stepDay cfg st cool inp).2.2 ∨
        row ∈ (runDays cfg (stepDay cfg st cool inp).1
          (stepDay cfg st cool inp).2.1 rest).2.2 := by
      simpa [runDays] using hrow
    rcases hrow2 with hhead | htail
    · subst hhead
      obtain ⟨hdate, _, hprop, hcb, hpb, hlb, hca, hpa⟩ := stepDay_row_base cfg st cool inp
      have hp' : inp.proposed = Signal.sell ∨ inp.proposed = Signal.close := by
        rcases hp with h | h
        · exact Or.inl (by rw [← hprop]; exact h)
        · exact Or.inr (by rw [← hprop]; exact h)
      have hb : settlementBlocked cfg st inp.date = true := by
        rcases hl with ⟨d, hld, hlt⟩
        rw [hlb] at hld
        rw [hdate] at hlt
        unfold settlementBlocked
        rw [hld]
        simpa using hlt
      obtain ⟨hport, hfin, hq, hsucc⟩ := stepDay_blocked cfg st cool inp hp' hb
      refine ⟨hfin, hq, hsucc, ?_, ?_⟩
      · rw [hca, hport, hcb]
      · rw [hpa, hport, hpb]
    · exact ih _ _ row htail hp hl

/-- Witness for C1: a sell proposed one day after the day-5 buy recorded in
`stHeld` (settlement offset 2) yields a hold row with quantity 0, success
false and unchanged cash. -/
theorem settlement_veto_never_executes_witness :
    (stepDay cfgW stHeld none inpSellBlocked).2.2.final = Signal.hold ∧
    (stepDay cfgW stHeld none inpSellBlocked).2.2.quantity = 0 ∧
    (stepDay cfgW stHeld none inpSellBlocked).2.2.success = false ∧
    (stepDay cfgW stHeld none inpSellBlocked).2.2.cashAfter =
      (stepDay cfgW stHeld none inpSellBlocked).2.2.cashBefore := by
  have hbase := stepDay_row_base cfgW stHeld none inpSellBlocked
  have hmem : (stepDay cfgW stHeld none inpSellBlocked).2.2 ∈
      (runDays cfgW stHeld none [inpSellBlocked]).2.2 := by
    simp [runDays]
  have hp : (stepDay cfgW stHeld none inpSellBlocked).2.2.proposed = Signal.sell ∨
      (stepDay cfgW stHeld none inpSellBlocked).2.2.proposed = Signal.close :=
    Or.inl (by rw [hbase.2.2.1]; rfl)
  have hl : rowSettlementLocked cfgW (stepDay cfgW stHeld none inpSellBlocked).2.2 := by
    refine ⟨5, by rw [hbase.2.2.2.2.2.1]; rfl, ?_⟩
    rw [hbase.1]
    decide
  have h := settlement_veto_never_executes cfgW [inpSellBlocked] stHeld none
    _ hmem hp hl
  exact ⟨h.1, h.2.1, h.2.2.1, h.2.2.2.1⟩

/-- C2: starting from a valid configuration and a nonnegative account, every
ledger row of every run has nonnegative cash and position after the day's
order; in particular a buy can never push cash below zero because sizing was
clamped to the affordable quantity before execution. -/
theorem cash_and_position_nonnegative (cfg : Config) :
    ∀ (inputs : List DayInput) (st : PortfolioState) (cool : Option ℕ),
      validConfig cfg → 0 ≤ st.cash → 0 ≤ st.position_shares →
      (∀ inp ∈ inputs, 0 ≤ inp.price) →
      ∀ row ∈ (runDays cfg st cool inputs).2.2,
        0 ≤ row.cashAfter ∧ 0 ≤ row.positionAfter := by
  intro inputs
  induction inputs with
  | nil =>
    intro st cool _ _ _ _ row hrow
    simp [runDays] at hrow
  | cons inp rest ih =>
    intro st cool hv hc hs hprices row hrow
    have hpr : 0 ≤ inp.price := hprices inp (List.mem_cons_self _ _)
    obtain ⟨hcash2, hpos2⟩ := stepDay_nonneg cfg st cool inp hv hpr hc hs
    have hrow2 : row = (stepDay cfg st cool inp).2.2 ∨
        row ∈ (runDays cfg (stepDay cfg st cool inp).1
          (stepDay cfg st cool inp).2.1 rest).2.2 := by
      simpa [runDays] using hrow
    rcases hrow2 with hhead | htail
    · subst hhead
      obtain ⟨_, _, _, _, _, _, hca, hpa⟩ := stepDay_row_base cfg st cool inp
      rw [hca, hpa]
      exact ⟨hcash2, hpos2⟩
    · exact ih _ _ hv hcash2 hpos2
        (fun i hi => hprices i (List.mem_cons_of_mem _ hi)) row htail

/-- Witness for C2: the day-5 one-lot buy from the fresh account leaves
nonnegative cash and position. -/
theorem cash_and_position_nonnegative_witness :
    0 ≤ (stepDay cfgW stInit none inpBuyPlain).2.2.cashAfter ∧
    0 ≤ (stepDay cfgW stInit none inpBuyPlain).2.2.positionAfter := by
  have hmem : (stepDay cfgW stInit none inpBuyPlain).2.2 ∈
      (runDays cfgW stInit none [inpBuyPlain]).2.2 := by
    simp [runDays]
  have hv : validConfig cfgW := by
    refine ⟨by norm_num [cfgW], by norm_num [cfgW], by norm_num [cfgW],
      by norm_num [cfgW], ?_⟩
    norm_num [cfgW, Config.sellFeeRate, Config.transferRate]
  have hprices : ∀ inp ∈ [inpBuyPlain], 0 ≤ inp.price := by
    intro i hi
    simp only [List.mem_singleton] at hi
    subst hi
    norm_num [inpBuyPlain]
  exact cash_and_position_nonnegative cfgW [inpBuyPlain] stInit none hv
    (by norm_num [stInit]) (by norm_num [stInit]) hprices _ hmem

theorem guardrail_buy_shape (cfg : Config) (st : PortfolioState) (inCd : Bool)
    (inp : DayInput) (hbuy : inp.proposed = Signal.buy) :
    ∃ lots : ℕ, lots ≤ maxAffordableLots cfg st.cash inp.price ∧
      (applyGuardrails cfg st inCd inp).2 = ((lots * cfg.lot_size : ℕ) : ℤ) := by
  simp only [applyGuardrails, hbuy]
  exact ⟨_, Nat.min_le_right _ _, rfl⟩

theorem guardrail_buy_exec (cfg : Config) (st : PortfolioState) (inCd : Bool)
    (inp : DayInput) (hbuy : inp.proposed = Signal.buy)
    (hflags : anyBullish inp.flags = true)
    (hncd : inCd = false ∨ inp.flags.is_cooldown_release_met = true ∨
      inp.cooldown_err = true) :
    ∃ q3 : ℕ, inp.req_lots ≤ q3 ∧
      applyGuardrails cfg st inCd inp =
        (Signal.buy, ((min q3 (maxAffordableLots cfg st.cash inp.price) *
          cfg.lot_size : ℕ) : ℤ)) := by
  have hstep1 : ¬(inp.cooldown_err = false ∧ inCd = true ∧
      inp.flags.is_cooldown_release_met = false) := by
    rintro ⟨h1, h2, h3⟩
    rcases hncd with h | h | h
    · rw [h] at h2; exact absurd h2 (by simp)
    · rw [h] at h3; exact absurd h3 (by simp)
    · rw [h] at h1; exact absurd h1 (by simp)
  have hstep2 : ¬(anyBullish inp.flags = false) := by simp [hflags]
  simp only [applyGuardrails, hbuy]
  rw [if_neg hstep1, if_neg hstep2]
  split_ifs with hpy
  · exact ⟨max inp.req_lots (maxAffordableLots cfg st.cash inp.price / 2),
      Nat.le_max_left _ _, rfl⟩
  · exact ⟨inp.req_lots, le_refl _, rfl⟩

/-- C3: the lot-and-budget clamp is the final sizing step of every order:
any buy survives the guardrails lot-aligned with fee-inclusive cost within
cash, any sell/close quantity is clamped to the held shares, and in
Scenario A (initial cash 100,000, lot 100, price 20, abundant request) the
executed quantity is the lot multiple 4,900 whose cost stays within cash,
with cash after equal to 100,000 minus that cost. -/
theorem lot_and_budget_clamp :
    (∀ (cfg : Config) (st : PortfolioState) (inCd : Bool) (inp : DayInput),
      validConfig cfg → 0 ≤ st.cash → inp.proposed = Signal.buy →
      (cfg.lot_size : ℤ) ∣ (applyGuardrails cfg st inCd inp).2 ∧
        ((applyGuardrails cfg st inCd inp).2 : ℚ) * inp.price *
          (1 + cfg.buyFeeRate) ≤ st.cash) ∧
    (∀ (cfg : Config) (st : PortfolioState) (inCd : Bool) (inp : DayInput),
      (inp.proposed = Signal.sell ∨ inp.proposed = Signal.close) →
      0 ≤ st.position_shares →
      (applyGuardrails cfg st inCd inp).2 ≤ st.position_shares) ∧
    ((stepDay cfgA stInit none inpA).2.2.final = Signal.buy ∧
      (stepDay cfgA stInit none inpA).2.2.quantity = 4900 ∧
      (100 : ℤ) ∣ (stepDay cfgA stInit none inpA).2.2.quantity ∧
      (stepDay cfgA stInit none inpA).2.2.success = true ∧
      (stepDay cfgA stInit none inpA).2.2.cashAfter =
        100000 - (4900 : ℚ) * 20 * (1 + cfgA.buyFeeRate)) := by
  refine ⟨?_, ?_, ?_⟩
  · intro cfg st inCd inp hv hc hbuy
    rcases guardrail_buy_shape cfg st inCd inp hbuy with ⟨lots, hle, heq⟩
    rw [heq]
    constructor
    · push_cast
      exact dvd_mul_left _ _
    · have h := lots_cost_le cfg st.cash inp.price hc lots hle
      push_cast at h ⊢
      exact h
  · intro cfg st inCd inp hp hpos
    rcases hp with h | h <;> simp only [applyGuardrails, h] <;> split_ifs <;> dsimp only
    · exact hpos
    · exact min_le_right _ _
    · exact hpos
    · exact hpos
    · exact le_refl _
    · exact hpos
  · have hml : maxAffordableLots cfgA (100000 : ℚ) 20 = 49 := by
      unfold maxAffordableLots Config.costPerLot Config.buyFeeRate Config.transferRate
      norm_num [cfgA]
      rfl
    have hg : applyGuardrails cfgA stInit false inpA = (Signal.buy, 4900) := by
      simp only [applyGuardrails, inpA, stInit, flagsMomentum, anyBullish, pyramidTrigger]
      norm_num [hml]
      norm_num [cfgA]
    have hcost : (0 : ℤ) < 4900 ∧
        ((4900 : ℤ) : ℚ) * 20 * (1 + cfgA.buyFeeRate) ≤ (100000 : ℚ) := by
      constructor
      · norm_num
      · norm_num [cfgA, Config.buyFeeRate, Config.transferRate]
    simp only [stepDay, hg]
    simp only [stepDay, inpA, stInit]
    simp only [applyOrder]
    rw [if_pos hcost]
    refine ⟨rfl, rfl, by decide, rfl, ?_⟩
    show (100000 : ℚ) - ((4900 : ℤ) : ℚ) * 20 * (1 + cfgA.buyFeeRate) =
      100000 - (4900 : ℚ) * 20 * (1 + cfgA.buyFeeRate)
    norm_num

/-- Witness for C3: the plain one-lot buy from the fresh account is
lot-aligned, and the sell with an erroring permit check on the profitable
account is clamped within the held shares. -/
theorem lot_and_budget_clamp_witness :
    (cfgW.lot_size : ℤ) ∣ (applyGuardrails cfgW stInit false inpBuyPlain).2 ∧
    ((applyGuardrails cfgW stInit false inpBuyPlain).2 : ℚ) * inpBuyPlain.price *
      (1 + cfgW.buyFeeRate) ≤ stInit.cash ∧
    (applyGuardrails cfgW stProfit false inpErrSell).2 ≤ stProfit.position_shares := by
  have hv : validConfig cfgW :=
    ⟨by norm_num [cfgW], by norm_num [cfgW], by norm_num [cfgW], by norm_num [cfgW],
      by norm_num [cfgW, Config.sellFeeRate, Config.transferRate]⟩
  obtain ⟨h1, h2⟩ := lot_and_budget_clamp.1 cfgW stInit false inpBuyPlain hv
    (by norm_num [stInit]) rfl
  exact ⟨h1, h2, lot_and_budget_clamp.2.1 cfgW stProfit false inpErrSell
    (Or.inl rfl) (by norm_num [stProfit])⟩

/-- C4: the super-trend exemption downgrades any proposed sell or close to
hold whenever the extreme-overbought bar (RSI 90) is not exceeded, and that
bar is strictly higher than the ordinary overbought close trigger (RSI 80);
in particular super trend with RSI 85 turns a proposed sell into hold. -/
theorem super_trend_sell_exemption :
    overboughtCloseRSI < extremeOverboughtRSI ∧
    ∀ (cfg : Config) (st : PortfolioState) (inCd : Bool) (inp : DayInput),
      inp.flags.is_super_trend = true → inp.sell_err = false →
      (inp.proposed = Signal.sell ∨ inp.proposed = Signal.close) →
      (∀ v, inp.rsi6 = some v → v ≤ extremeOverboughtRSI) →
      applyGuardrails cfg st inCd inp = (Signal.hold, 0) := by
  constructor
  · norm_num [overboughtCloseRSI, extremeOverboughtRSI]
  · intro cfg st inCd inp hsuper herr hp hrsi
    have hpermit : sellPermit inp.flags inp.sell_err inp.rsi6 = false := by
      unfold sellPermit
      rw [herr, hsuper]
      simp only [Bool.false_eq_true, if_false, if_true]
      cases hr : inp.rsi6 with
      | none => rfl
      | some v =>
        have hv := hrsi v hr
        simp only [decide_eq_false_iff_not]
        exact not_lt.mpr hv
    rcases hp with h | h <;> simp [applyGuardrails, h, hpermit]

/-- Witness for C4: super trend, RSI 85, proposed sell on the held account
yields the final order (hold, 0). -/
theorem super_trend_sell_exemption_witness :
    applyGuardrails cfgW stHeld false inpSell85 = (Signal.hold, 0) := by
  refine super_trend_sell_exemption.2 cfgW stHeld false inpSell85 rfl rfl
    (Or.inl rfl) ?_
  intro v hv
  have h85 : inpSell85.rsi6 = some (85 : ℚ) := rfl
  rw [h85] at hv
  injection hv with hv2
  rw [← hv2]
  norm_num [extremeOverboughtRSI]

/-- C5: while the cooldown is still locked (`date < locked_until`), a day on
which the release condition holds unlocks immediately: the guardrail sees no
cooldown, an otherwise-eligible buy executes that same day, and the cooldown
state after the day is Unlocked even though the lockout date was not
reached. -/
theorem cooldown_early_release (cfg : Config) (st : PortfolioState) (u : ℕ)
    (inp : DayInput)
    (hv : validConfig cfg) (hc : 0 ≤ st.cash)
    (hbuy : inp.proposed = Signal.buy)
    (hlock : inp.date < u)
    (hrel : computeReleaseMet inp.rsi6 inp.price inp.ema20 = true)
    (hflags : anyBullish inp.flags = true)
    (hreq : 1 ≤ inp.req_lots)
    (haff : 1 ≤ maxAffordableLots cfg st.cash inp.price) :
    (stepDay cfg st (some u) inp).2.2.final = Signal.buy ∧
    (stepDay cfg st (some u) inp).2.2.success = true ∧
    0 < (stepDay cfg st (some u) inp).2.2.quantity ∧
    (stepDay cfg st (some u) inp).2.1 = none := by
  rcases guardrail_buy_exec cfg st false inp hbuy hflags (Or.inl rfl) with ⟨q3, hq3, hgeq⟩
  have hlots1 : 1 ≤ min q3 (maxAffordableLots cfg st.cash inp.price) :=
    le_min (le_trans hreq hq3) haff
  have hqty_pos : (0 : ℤ) <
      ((min q3 (maxAffordableLots cfg st.cash inp.price) * cfg.lot_size : ℕ) : ℤ) := by
    have h := Nat.mul_pos hlots1 hv.1
    exact_mod_cast h
  have hcost := lots_cost_le cfg st.cash inp.price hc
    (min q3 (maxAffordableLots cfg st.cash inp.price)) (min_le_right _ _)
  have hc2 : (((min q3 (maxAffordableLots cfg st.cash inp.price) *
      cfg.lot_size : ℕ) : ℤ) : ℚ) * inp.price * (1 + cfg.buyFeeRate) ≤ st.cash := by
    push_cast at hcost ⊢
    exact hcost
  simp only [stepDay]
  rw [if_pos ⟨hlock, hrel⟩]
  dsimp only
  rw [hgeq]
  simp only [applyOrder]
  rw [if_pos ⟨hqty_pos, hc2⟩]
  refine ⟨rfl, rfl, hqty_pos, ?_⟩
  rw [if_neg (by simp)]

/-- Witness for C5 (Scenario D): cooldown locked until day 12 but an RSI-30
oversold reading on day 10 releases it, so the proposed one-lot buy executes
that day and the cooldown state ends the day Unlocked. -/
theorem cooldown_early_release_witness :
    (stepDay cfgW stInit (some 12) inpRelease).2.2.final = Signal.buy ∧
    (stepDay cfgW stInit (some 12) inpRelease).2.2.success = true ∧
    0 < (stepDay cfgW stInit (some 12) inpRelease).2.2.quantity ∧
    (stepDay cfgW stInit (some 12) inpRelease).2.1 = none := by
  refine cooldown_early_release cfgW stInit 12 inpRelease ?_ ?_ rfl ?_ ?_ ?_ ?_ ?_
  · exact ⟨by norm_num [cfgW], by norm_num [cfgW], by norm_num [cfgW],
      by norm_num [cfgW], by norm_num [cfgW, Config.sellFeeRate, Config.transferRate]⟩
  · norm_num [stInit]
  · decide
  · show (decide ((30 : ℚ) < 40) || false) = true
    rw [decide_eq_true (by norm_num : (30 : ℚ) < 40)]
    rfl
  · decide
  · decide
  · have hml : maxAffordableLots cfgW (100000 : ℚ) 20 = 50 := by
      unfold maxAffordableLots Config.costPerLot Config.buyFeeRate Config.transferRate
      norm_num [cfgW]
      rfl
    show 1 ≤ maxAffordableLots cfgW stInit.cash inpRelease.price
    rw [show stInit.cash = (100000 : ℚ) from rfl,
      show inpRelease.price = (20 : ℚ) from rfl, hml]
    norm_num

/-- C6 counterexample: with the cooldown locked until day 100, no release
condition in sight and the buy-cooldown check raising an exception, the
engine does not resolve to (hold, 0): the `except: pass` handler skips the
check and the proposed buy executes with quantity 100. -/
theorem guardrail_error_not_fail_safe :
    (stepDay cfgW stInit (some 100) inpErrBuy).2.2.final = Signal.buy ∧
    (stepDay cfgW stInit (some 100) inpErrBuy).2.2.quantity = 100 ∧
    (stepDay cfgW stInit (some 100) inpErrBuy).2.2.success = true := by
  have hrelf : computeReleaseMet inpErrBuy.rsi6 inpErrBuy.price inpErrBuy.ema20 = false := by
    show (decide ((70 : ℚ) < 40) ||
      (decide ((20 : ℚ) ≠ 0) && decide ((10 : ℚ) ≠ 0) && decide ((10 : ℚ) ≤ 20) &&
        decide ((20 : ℚ) ≤ 10 * (203 / 200)))) = false
    rw [decide_eq_false (by norm_num : ¬((70 : ℚ) < 40)),
      decide_eq_false (by norm_num : ¬((20 : ℚ) ≤ 10 * (203 / 200)))]
    simp
  have hcool : ¬(inpErrBuy.date < 100 ∧
      computeReleaseMet inpErrBuy.rsi6 inpErrBuy.price inpErrBuy.ema20 = true) := by
    rintro ⟨-, h⟩
    rw [hrelf] at h
    exact absurd h (by simp)
  have hml : maxAffordableLots cfgW (100000 : ℚ) 20 = 50 := by
    unfold maxAffordableLots Config.costPerLot Config.buyFeeRate Config.transferRate
    norm_num [cfgW]
    rfl
  have hg : applyGuardrails cfgW stInit true inpErrBuy = (Signal.buy, 100) := by
    simp only [applyGuardrails, inpErrBuy, stInit, flagsMomentum, anyBullish, pyramidTrigger]
    norm_num [hml]
    norm_num [cfgW]
  have hcost : (0 : ℤ) < 100 ∧
      ((100 : ℤ) : ℚ) * 20 * (1 + cfgW.buyFeeRate) ≤ (100000 : ℚ) := by
    constructor
    · norm_num
    · norm_num [cfgW, Config.buyFeeRate, Config.transferRate]
  have hdec : decide (inpErrBuy.date < 100) = true := rfl
  simp only [stepDay]
  rw [if_neg hcool]
  dsimp only
  rw [hdec, hg]
  simp only [stepDay, inpErrBuy, stInit]
  simp only [applyOrder]
  rw [if_pos hcost]
  exact ⟨rfl, rfl, rfl⟩

/-- C6 amended: an exception inside a guardrail block is swallowed, never
propagated, and the day still yields a result; but the failing check is
skipped rather than failing safe to (hold, 0): a cooldown-check error makes
the result identical to the no-cooldown result, and a sell-branch error lets
the proposed sell or close pass through unchanged. -/
theorem guardrail_error_skips_check :
    ∀ (cfg : Config) (st : PortfolioState) (inCd : Bool) (inp : DayInput),
      (inp.cooldown_err = true →
        applyGuardrails cfg st inCd inp = applyGuardrails cfg st false inp) ∧
      (inp.sell_err = true →
        (inp.proposed = Signal.sell ∨ inp.proposed = Signal.close) →
        settlementBlocked cfg st inp.date = false →
        (applyGuardrails cfg st inCd inp).1 = inp.proposed) := by
  intro cfg st inCd inp
  constructor
  · intro herr
    cases hp : inp.proposed <;> simp [applyGuardrails, hp, herr]
  · intro herr hp hnb
    rcases hp with h | h <;> simp [applyGuardrails, h, hnb, sellPermit, herr]

/-- Witness for the amended C6: the erroring cooldown check leaves the result
equal to the no-cooldown result, and an erroring sell branch lets the
proposed sell through. -/
theorem guardrail_error_skips_check_witness :
    applyGuardrails cfgW stInit true inpErrBuy =
      applyGuardrails cfgW stInit false inpErrBuy ∧
    (applyGuardrails cfgW stProfit false inpErrSell).1 = Signal.sell := by
  constructor
  · exact (guardrail_error_skips_check cfgW stInit true inpErrBuy).1 rfl
  · have h := (guardrail_error_skips_check cfgW stProfit false inpErrSell).2 rfl
      (Or.inl rfl) rfl
    rw [h]
    rfl

/-- C7: profit-scaling (pyramiding) is monotone and never enabling: if the
signal is still buy after the veto gates, the gain exceeds the 5% threshold
and momentum is set, the final quantity is max(requested, half the maximum
affordable lot count), hence at least the requested quantity and at least the
scaling target, still lot-aligned and fee-inclusively affordable; and any
input vetoed to hold by the cooldown or eligibility gates stays hold. -/
theorem pyramiding_monotone :
    (∀ (cfg : Config) (st : PortfolioState) (inCd : Bool) (inp : DayInput),
      validConfig cfg → 0 ≤ st.cash →
      inp.proposed = Signal.buy →
      inp.pyramid_err = false →
      pyramidTrigger st inp.price = true →
      inp.flags.is_momentum_buy = true →
      (inCd = false ∨ inp.flags.is_cooldown_release_met = true ∨
        inp.cooldown_err = true) →
      inp.req_lots ≤ maxAffordableLots cfg st.cash inp.price →
      (applyGuardrails cfg st inCd inp).1 = Signal.buy ∧
        ((inp.req_lots * cfg.lot_size : ℕ) : ℤ) ≤ (applyGuardrails cfg st inCd inp).2 ∧
        (((maxAffordableLots cfg st.cash inp.price / 2) * cfg.lot_size : ℕ) : ℤ) ≤
          (applyGuardrails cfg st inCd inp).2 ∧
        (cfg.lot_size : ℤ) ∣ (applyGuardrails cfg st inCd inp).2 ∧
        ((applyGuardrails cfg st inCd inp).2 : ℚ) * inp.price *
          (1 + cfg.buyFeeRate) ≤ st.cash) ∧
    (∀ (cfg : Config) (st : PortfolioState) (inCd : Bool) (inp : DayInput),
      inp.proposed = Signal.buy →
      (anyBullish inp.flags = false ∨
        (inp.cooldown_err = false ∧ inCd = true ∧
          inp.flags.is_cooldown_release_met = false)) →
      (applyGuardrails cfg st inCd inp).1 = Signal.hold) := by
  constructor
  · intro cfg st inCd inp hv hc hbuy hperr htrig hmom hncd hreq
    have hflags : anyBullish inp.flags = true := by
      unfold anyBullish
      rw [hmom]
      simp
    have hmle : max inp.req_lots (maxAffordableLots cfg st.cash inp.price / 2) ≤
        maxAffordableLots cfg st.cash inp.price :=
      max_le hreq (Nat.div_le_self _ _)
    have hout : applyGuardrails cfg st inCd inp =
        (Signal.buy, ((max inp.req_lots (maxAffordableLots cfg st.cash inp.price / 2) *
          cfg.lot_size : ℕ) : ℤ)) := by
      have hstep1 : ¬(inp.cooldown_err = false ∧ inCd = true ∧
          inp.flags.is_cooldown_release_met = false) := by
        rintro ⟨h1, h2, h3⟩
        rcases hncd with h | h | h
        · rw [h] at h2; exact absurd h2 (by simp)
        · rw [h] at h3; exact absurd h3 (by simp)
        · rw [h] at h1; exact absurd h1 (by simp)
      have hstep2 : ¬(anyBullish inp.flags = false) := by simp [hflags]
      simp only [applyGuardrails, hbuy]
      rw [if_neg hstep1, if_neg hstep2, if_pos ⟨hperr, htrig, hmom⟩]
      dsimp only
      rw [min_eq_left hmle]
    rw [hout]
    dsimp only
    refine ⟨rfl, ?_, ?_, ?_, ?_⟩
    · have h := Nat.mul_le_mul_right cfg.lot_size (Nat.le_max_left inp.req_lots
        (maxAffordableLots cfg st.cash inp.price / 2))
      exact_mod_cast h
    · have h := Nat.mul_le_mul_right cfg.lot_size (Nat.le_max_right inp.req_lots
        (maxAffordableLots cfg st.cash inp.price / 2))
      exact_mod_cast h
    · push_cast
      exact dvd_mul_left _ _
    · have h := lots_cost_le cfg st.cash inp.price hc
        (max inp.req_lots (maxAffordableLots cfg st.cash inp.price / 2)) hmle
      push_cast at h ⊢
      exact h
  · intro cfg st inCd inp hbuy hveto
    rcases hveto with h | ⟨h1, h2, h3⟩
    · simp only [applyGuardrails, hbuy]
      rw [if_pos h]
    · simp only [applyGuardrails, hbuy]
      rw [if_pos (show inp.cooldown_err = false ∧ inCd = true ∧
        inp.flags.is_cooldown_release_met = false from ⟨h1, h2, h3⟩)]
      split_ifs <;> rfl

/-- Witness for C7 (Scenario E): a one-lot buy on a position 6% in profit
with momentum set is raised to half the affordable lot count, and a buy with
no bullish flag stays vetoed to hold. -/
theorem pyramiding_monotone_witness :
    (applyGuardrails cfgW stProfit false inpPyr).1 = Signal.buy ∧
    ((inpPyr.req_lots * cfgW.lot_size : ℕ) : ℤ) ≤
      (applyGuardrails cfgW stProfit false inpPyr).2 ∧
    (((maxAffordableLots cfgW stProfit.cash inpPyr.price / 2) * cfgW.lot_size : ℕ) : ℤ) ≤
      (applyGuardrails cfgW stProfit false inpPyr).2 ∧
    (applyGuardrails cfgW stInit true inpQuietBuy).1 = Signal.hold := by
  have hv : validConfig cfgW :=
    ⟨by norm_num [cfgW], by norm_num [cfgW], by norm_num [cfgW], by norm_num [cfgW],
      by norm_num [cfgW, Config.sellFeeRate, Config.transferRate]⟩
  have htrig : pyramidTrigger stProfit inpPyr.price = true := by
    show (decide ((20 : ℚ) ≠ 0) && decide ((212 / 10 : ℚ) ≠ 0) &&
      decide ((0 : ℚ) < 20) &&
      decide (pyramidProfitThreshold < ((212 / 10 : ℚ) - 20) / 20)) = true
    rw [decide_eq_true (by norm_num : (20 : ℚ) ≠ 0),
      decide_eq_true (by norm_num : (212 / 10 : ℚ) ≠ 0),
      decide_eq_true (by norm_num : (0 : ℚ) < 20),
      decide_eq_true (by norm_num [pyramidProfitThreshold] :
        pyramidProfitThreshold < ((212 / 10 : ℚ) - 20) / 20)]
    rfl
  have hml : maxAffordableLots cfgW (50000 : ℚ) (212 / 10) = 23 := by
    unfold maxAffordableLots Config.costPerLot Config.buyFeeRate Config.transferRate
    norm_num [cfgW]
    rfl
  have hreq : inpPyr.req_lots ≤ maxAffordableLots cfgW stProfit.cash inpPyr.price := by
    show (1 : ℕ) ≤ maxAffordableLots cfgW stProfit.cash inpPyr.price
    rw [show stProfit.cash = (50000 : ℚ) from rfl,
      show inpPyr.price = ((212 : ℚ) / 10) from rfl, hml]
    norm_num
  obtain ⟨h1, h2, h3, -, -⟩ := pyramiding_monotone.1 cfgW stProfit false inpPyr hv
    (by norm_num [stProfit]) rfl rfl htrig rfl (Or.inl rfl) hreq
  exact ⟨h1, h2, h3,
    pyramiding_monotone.2 cfgW stInit true inpQuietBuy rfl (Or.inl (by decide))⟩

theorem getD_map_of_lt {α β : Type} (f : α → β) (l : List α) (i : ℕ) (d : β) (d' : α)
    (hi : i < l.length) : (l.map f).getD i d = f (l.getD i d') := by
  induction l generalizing i with
  | nil => simp at hi
  | cons a t ih =>
    cases i with
    | zero => rfl
    | succ n => exact ih n (by simpa using hi)

theorem last_getD_eq_getLast (L : List ℚ) :
    (if 0 < L.length then L.getD (L.length - 1) 0 else 0) = L.getLast?.getD 0 := by
  cases L with
  | nil => rfl
  | cons a l =>
    rw [if_pos (by simp)]
    rw [List.getLast?_eq_getElem?, List.getD_eq_getD_get?, List.get?_eq_getElem?]

/-- C8 counterexample: the performance summary reports winRate 0 and sharpe 0
both for a run whose equity rose from 100,000 to 120,000 and for one that
fell to 80,000 — the reported win rate and the risk statistic are hardcoded
constants, not functions of the recorded trades. -/
theorem run_summary_constant_stats :
    (performanceSummary mrowsUp).winRate = 0 ∧
    (performanceSummary mrowsDown).winRate = 0 ∧
    (performanceSummary mrowsUp).sharpe = 0 :=
  ⟨rfl, rfl, rfl⟩

/-- C8 amended: for every metrics stream the summary's currentEquity (and
hence change24h) is derived from the deduplicated, date-sorted equity stream
— currentEquity is its last equity, 0 when empty — while winRate and sharpe
are the constant 0; realized/unrealized P&L, max drawdown and trade count are
not reported at all. -/
theorem run_summary_fields (rows : List MetricRow) :
    (performanceSummary rows).winRate = 0 ∧
    (performanceSummary rows).sharpe = 0 ∧
    (performanceSummary rows).currentEquity =
      ((sortedUniqueMetrics rows).map metricEquity).getLast?.getD 0 := by
  refine ⟨rfl, rfl, ?_⟩
  show (if 0 < ((sortedUniqueMetrics rows).map metricEquity).length then
      ((sortedUniqueMetrics rows).map metricEquity).getD
        (((sortedUniqueMetrics rows).map metricEquity).length - 1) 0
    else 0) = ((sortedUniqueMetrics rows).map metricEquity).getLast?.getD 0
  exact last_getD_eq_getLast _

/-- C9: change24h equals the last equity minus the second-to-last equity of
the daily-metrics rows after deduplicating by calendar day — keeping the last
row per date, characterized through `lastWithKey` — and sorting ascending;
with fewer than two surviving rows change24h is 0, and currentEquity is 0 for
an empty series. -/
theorem change24h_spec (rows : List MetricRow) :
    (∀ r ∈ dedupeByKey MetricRow.dkey rows,
      lastWithKey MetricRow.dkey rows (MetricRow.dkey r) = some r) ∧
    (∀ r ∈ rows, ∃ s ∈ dedupeByKey MetricRow.dkey rows,
      MetricRow.dkey s = MetricRow.dkey r) ∧
    (sortedUniqueMetrics rows).Pairwise (fun a b => a.date ≤ b.date) ∧
    (2 ≤ (sortedUniqueMetrics rows).length →
      (performanceSummary rows).change24h =
        metricEquity ((sortedUniqueMetrics rows).getD
          ((sortedUniqueMetrics rows).length - 1) mrDefault) -
        metricEquity ((sortedUniqueMetrics rows).getD
          ((sortedUniqueMetrics rows).length - 2) mrDefault)) ∧
    ((sortedUniqueMetrics rows).length < 2 →
      (performanceSummary rows).change24h = 0) ∧
    (rows = [] → (performanceSummary rows).currentEquity = 0) := by
  refine ⟨dedupeByKey_lastWithKey _ rows, dedupeByKey_covers _ rows,
    sortByKey_sorted _ _, ?_, ?_, ?_⟩
  · intro h2
    have hlen : ((sortedUniqueMetrics rows).map metricEquity).length =
        (sortedUniqueMetrics rows).length := List.length_map _ _
    show (if 0 < ((sortedUniqueMetrics rows).map metricEquity).length then
        ((sortedUniqueMetrics rows).map metricEquity).getD
          (((sortedUniqueMetrics rows).map metricEquity).length - 1) 0
      else 0) -
      (if 1 < ((sortedUniqueMetrics rows).map metricEquity).length then
        ((sortedUniqueMetrics rows).map metricEquity).getD
          (((sortedUniqueMetrics rows).map metricEquity).length - 2) 0
      else
        (if 0 < ((sortedUniqueMetrics rows).map metricEquity).length then
          ((sortedUniqueMetrics rows).map metricEquity).getD
            (((sortedUniqueMetrics rows).map metricEquity).length - 1) 0
        else 0)) = _
    rw [hlen, if_pos (by omega), if_pos (by omega),
      getD_map_of_lt metricEquity _ _ _ mrDefault (by omega),
      getD_map_of_lt metricEquity _ _ _ mrDefault (by omega)]
  · intro hlt
    have h01 : (sortedUniqueMetrics rows).length = 0 ∨
        (sortedUniqueMetrics rows).length = 1 := by omega
    rcases h01 with h0 | h1
    · have hnil : sortedUniqueMetrics rows = [] := List.length_eq_zero.mp h0
      show (if 0 < ((sortedUniqueMetrics rows).map metricEquity).length then _ else 0) -
        _ = (0 : ℚ)
      rw [hnil]
      simp
    · rcases List.length_eq_one.mp h1 with ⟨a, ha⟩
      show (if 0 < ((sortedUniqueMetrics rows).map metricEquity).length then _ else 0) -
        _ = (0 : ℚ)
      rw [ha]
      simp
  · intro h
    subst h
    rfl

/-- Witness for C9: on the three-row fixture whose last two rows share a
calendar day, change24h is the difference of the last two surviving equities,
and the survivor for the duplicated day is the last row read. -/
theorem change24h_spec_witness :
    (performanceSummary mrowsW).change24h =
      metricEquity ((sortedUniqueMetrics mrowsW).getD
        ((sortedUniqueMetrics mrowsW).length - 1) mrDefault) -
      metricEquity ((sortedUniqueMetrics mrowsW).getD
        ((sortedUniqueMetrics mrowsW).length - 2) mrDefault) ∧
    lastWithKey MetricRow.dkey mrowsW
      (MetricRow.dkey { date := msPerDay + 1, equity := some 102000 }) =
      some { date := msPerDay + 1, equity := some 102000 } := by
  constructor
  · refine (change24h_spec mrowsW).2.2.2.1 ?_
    have hlen : (sortedUniqueMetrics mrowsW).length = 2 := rfl
    rw [hlen]
  · refine (change24h_spec mrowsW).1 _ ?_
    have hd : dedupeByKey MetricRow.dkey mrowsW =
        [{ date := 0, equity := some 100000 },
          { date := msPerDay + 1, equity := some 102000 }] := rfl
    rw [hd]
    exact List.mem_cons_of_mem _ (List.mem_cons_self _ _)

/-- C10: the kline endpoint returns at most one OHLC entry and at most one
signal per calendar day (when rows share a day the last row read wins, so the
day keys of the outputs are pairwise distinct), both lists sorted ascending
by date; a trade row surfaces as a signal only when its side lowercases to
buy, sell or close, and each signal carries the original side string, the
row's qty, and effective_price falling back to price then 0. -/
theorem kline_dedupe_filter (oRows : List OhlcRow) (tRows : List TradeRow) :
    (klineOhlc oRows).Pairwise (fun a b => dayKey a.trade_date ≠ dayKey b.trade_date) ∧
    (klineSignals tRows).Pairwise (fun a b => dayKey a.trade_date ≠ dayKey b.trade_date) ∧
    (klineOhlc oRows).Pairwise (fun a b => a.trade_date ≤ b.trade_date) ∧
    (klineSignals tRows).Pairwise (fun a b => a.trade_date ≤ b.trade_date) ∧
    (∀ s ∈ klineSignals tRows, sideAllowed s.signal = true) ∧
    (∀ s ∈ klineSignals tRows, ∃ r ∈ tRows, s.signal = r.side ∧
      s.quantity = r.qty.getD 0 ∧ s.price = (r.effective_price.or r.price).getD 0 ∧
      s.trade_date = r.date) := by
  have hdupO : (uniqueOhlc oRows).Pairwise
      (fun a b => dayKey a.date ≠ dayKey b.date) :=
    ((sortByKey_perm (fun r : OhlcRow => r.date) _).pairwise_iff
        (fun h => Ne.symm h)).mpr
      (dedupeByKey_pairwise (fun r : OhlcRow => dayKey r.date) oRows)
  have hdupT : (uniqueTrades tRows).Pairwise
      (fun a b => dayKey a.date ≠ dayKey b.date) :=
    ((sortByKey_perm (fun r : TradeRow => r.date) _).pairwise_iff
        (fun h => Ne.symm h)).mpr
      (dedupeByKey_pairwise (fun r : TradeRow => dayKey r.date) tRows)
  refine ⟨?_, ?_, ?_, ?_, ?_, ?_⟩
  · exact (List.pairwise_map).mpr hdupO
  · exact (List.pairwise_map).mpr (hdupT.filter _)
  · exact (List.pairwise_map).mpr (sortByKey_sorted (fun r : OhlcRow => r.date) _)
  · exact (List.pairwise_map).mpr
      ((sortByKey_sorted (fun r : TradeRow => r.date) _).filter _)
  · intro s hs
    rcases List.mem_map.mp hs with ⟨r, hr, hfr⟩
    have hallow : sideAllowed r.side = true := (List.mem_filter.mp hr).2
    rw [← hfr]
    exact hallow
  · intro s hs
    rcases List.mem_map.mp hs with ⟨r, hr, hfr⟩
    have hrt : r ∈ tRows := by
      have h1 : r ∈ uniqueTrades tRows := (List.mem_filter.mp hr).1
      have h2 : r ∈ dedupeByKey (fun r : TradeRow => dayKey r.date) tRows :=
        (sortByKey_perm (fun r : TradeRow => r.date) _).mem_iff.mp h1
      exact dedupeByKey_mem _ tRows r h2
    exact ⟨r, hrt, by rw [← hfr], by rw [← hfr], by rw [← hfr]; rfl, by rw [← hfr]⟩

/-- Witness for C10: on the trades fixture (buy, hold, upper-case SELL) the
buy row survives into the signals and its side passes the case-insensitive
filter. -/
theorem kline_dedupe_filter_witness :
    sideAllowed (sigBuyW.signal) = true := by
  have hsig : klineSignals tradesW = [sigBuyW, sigSellW] := rfl
  have hmem : sigBuyW ∈ klineSignals tradesW := by
    rw [hsig]
    exact List.mem_cons_self _ _
  exact (kline_dedupe_filter ohlcW tradesW).2.2.2.2.1 _ hmem

end AITrading
